import Mathlib

/-!
Verification of the path-resolution subsystem of the Vim extension
(`src/util/path.ts` and the newer path module).

JavaScript strings are modelled as `List Char` (`JStr`).  The helpers in the
first section model the JavaScript string primitives used by the source
(`s[i]`, `indexOf`, `lastIndexOf`, `slice`, `replace(/\//g,'\\')`).  The
Node.js `path.posix` / `path.win32` primitives (`join`, `normalize`,
`isAbsolute`, `sep`) are external collaborators of the repository; they are
modelled after the Node.js implementation (segment-wise normalization).
-/

set_option autoImplicit false

/-- JavaScript string, modelled as a list of characters. -/
abbrev JStr := List Char

/-- Convert a Lean string literal to the JavaScript string model. -/
def jstr (s : String) : JStr := s.toList

/-- JavaScript `s.indexOf(c)` restricted to the tail: auxiliary scan keeping
the absolute index of the head of the remaining list. -/
def indexOfAux : JStr → Char → Nat → Option Nat
  | [], _, _ => none
  | x :: xs, c, i => if x = c then some i else indexOfAux xs c (i + 1)

/-- JavaScript `s.indexOf(c, k)` (first index `≥ k` holding `c`; `none` for `-1`). -/
def indexOfFrom (s : JStr) (c : Char) (k : Nat) : Option Nat :=
  indexOfAux (s.drop k) c k

/-- JavaScript `s.lastIndexOf(c)` (largest index holding `c`; `none` for `-1`). -/
def lastIndexOf : JStr → Char → Option Nat
  | [], _ => none
  | x :: xs, c =>
    match lastIndexOf xs c with
    | some i => some (i + 1)
    | none => if x = c then some 0 else none

/-- Length of the longest prefix whose characters all satisfy `p`. -/
def countWhile (p : Char → Bool) : JStr → Nat
  | [] => 0
  | c :: rest => if p c then countWhile p rest + 1 else 0

/-- JavaScript `s.slice(a, b)` / `s.substring(a, b)` for `a ≤ b`. -/
def jsSlice (s : JStr) (a b : Nat) : JStr := (s.take b).drop a

/-- The separator-rewrite `partialPath.replace(/\//g, '\\')` from the source. -/
def slashToBackslash (s : JStr) : JStr :=
  s.map (fun c => if c = '/' then '\\' else c)

/-- Node.js `isPathSeparator` (path.ts lines 370-372 of the path module):
forward slash or backslash. -/
def isPathSep (c : Char) : Bool := c = '/' || c = '\\'

/-- ASCII letter test, as the char-code range checks of `hasDriveLetter`
(path module lines 356-368) and Node's `isWindowsDeviceRoot`. -/
def isAsciiLetter (c : Char) : Bool :=
  ('A' ≤ c && c ≤ 'Z') || ('a' ≤ c && c ≤ 'z')

/-- `hasDriveLetter` from the path module (lines 356-368): the two characters
at `offset` are a letter followed by a colon. -/
def hasDriveLetter (s : JStr) (offset : Nat) : Bool :=
  if s.length ≥ 2 + offset then
    match s.get? offset, s.get? (offset + 1) with
    | some c0, some c1 => c1 = ':' && isAsciiLetter c0
    | _, _ => false
  else false

/-- `separatePath` (path module lines 31-50, `src/util/path.ts` lines 5-25):
split a path into directory part (up to and including the last separator)
and base name, with the incomplete-UNC special case.  Separators are single
characters, as both platform separators (`path.win32.sep`, `path.posix.sep`)
are. -/
def separatePath (searchPath : JStr) (sep : Char) : JStr × JStr :=
  if sep = '\\' ∧ searchPath.get? 0 = some '\\' ∧ searchPath.get? 1 = some '\\'
      ∧ indexOfFrom searchPath '\\' 2 = none then
    -- incomplete UNC path such as \\test-server: whole string is the dir part
    (searchPath, [])
  else
    let baseNameIndex := match lastIndexOf searchPath sep with
      | some i => i + 1
      | none => 0
    (searchPath.take baseNameIndex, searchPath.drop baseNameIndex)

/-- Split a string into segments at separators (used by the Node.js
`normalizeString` model). Splitting keeps empty segments. -/
def splitSegsBy (isSep : Char → Bool) (s : JStr) : List JStr :=
  s.foldr
    (fun c acc =>
      match acc with
      | [] => if isSep c then [[], []] else [[c]]
      | seg :: rest => if isSep c then [] :: seg :: rest else (c :: seg) :: rest)
    [[]]

/-- Accumulator form of Node's `normalizeString` segment processing: the
stack is kept reversed.  `..` pops a previous segment, or is kept when
`allowAboveRoot` and nothing can be popped; `.` and empty segments vanish. -/
def normSegsRev (allowAboveRoot : Bool) : List JStr → List JStr → List JStr
  | stack, [] => stack
  | stack, seg :: rest =>
    if seg = [] ∨ seg = ['.'] then normSegsRev allowAboveRoot stack rest
    else if seg = ['.', '.'] then
      match stack with
      | top :: stack' =>
        if top = ['.', '.'] then normSegsRev allowAboveRoot (seg :: top :: stack') rest
        else normSegsRev allowAboveRoot stack' rest
      | [] =>
        normSegsRev allowAboveRoot (if allowAboveRoot then [seg] else []) rest
    else normSegsRev allowAboveRoot (seg :: stack) rest

/-- Node's `normalizeString` on the segment level. -/
def normSegs (allowAboveRoot : Bool) (segs : List JStr) : List JStr :=
  (normSegsRev allowAboveRoot [] segs).reverse

/-- Node's `normalizeString(path, allowAboveRoot, sep, isSep)` result as a
string: normalized segments joined by `sep`. -/
def normString (allowAboveRoot : Bool) (sep : Char) (isSep : Char → Bool) (s : JStr) : JStr :=
  List.intercalate [sep] (normSegs allowAboveRoot (splitSegsBy isSep s))

/-- Node.js `path.posix.isAbsolute`. -/
def posixIsAbsolute (s : JStr) : Bool := s.get? 0 = some '/'

/-- Node.js `path.posix.normalize`. -/
def posixNormalize (s : JStr) : JStr :=
  if s = [] then ['.']
  else
    let isAbs := s.get? 0 = some '/'
    let trailing := s.getLast? = some '/'
    let core := normString (!isAbs) '/' (fun c => c = '/') s
    if core = [] then
      if isAbs then ['/'] else if trailing then ['.', '/'] else ['.']
    else
      (if isAbs then ['/'] else []) ++ core ++ (if trailing then ['/'] else [])

/-- Node.js `path.posix.join` restricted to two arguments (the only arity the
source uses). -/
def posixJoin (a b : JStr) : JStr :=
  match a, b with
  | [], [] => ['.']
  | [], b => posixNormalize b
  | a, [] => posixNormalize a
  | a, b => posixNormalize (a ++ '/' :: b)

/-- Node.js `path.win32.isAbsolute`. -/
def win32IsAbsolute (s : JStr) : Bool :=
  match s with
  | [] => false
  | c :: rest =>
    isPathSep c ||
      (match rest with
       | c1 :: c2 :: _ => isAsciiLetter c && c1 = ':' && isPathSep c2
       | _ => false)

/-- Whether the last character of a string is a path separator
(`isPathSeparator(path.charCodeAt(len - 1))` in Node's win32 normalize). -/
def lastIsSep (s : JStr) : Bool :=
  match s.getLast? with
  | some c => isPathSep c
  | none => false

/-- Node.js `path.win32.normalize`, root parsing step.  Result is either the
early UNC-root return (`Sum.inr`) or `(device?, rootEnd, isAbsolute)`
(`Sum.inl`), exactly following the branch structure of the Node source. -/
def win32NormalizeRoot (s : JStr) (c0 c1 : Char) : (Option JStr × Nat × Bool) ⊕ JStr :=
  if isPathSep c0 then
    if isPathSep c1 then
      -- possible UNC root
      let j1 := 2 + countWhile (fun c => !isPathSep c) (s.drop 2)
      if j1 < s.length ∧ j1 ≠ 2 then
        let firstPart := jsSlice s 2 j1
        let j2 := j1 + countWhile isPathSep (s.drop j1)
        if j2 < s.length then
          let j3 := j2 + countWhile (fun c => !isPathSep c) (s.drop j2)
          if j3 = s.length then
            -- matched a UNC root only: return it with a trailing separator
            Sum.inr ('\\' :: '\\' :: firstPart ++ '\\' :: (s.drop j2 ++ ['\\']))
          else if j3 ≠ j2 then
            Sum.inl (some ('\\' :: '\\' :: firstPart ++ '\\' :: jsSlice s j2 j3), j3, true)
          else Sum.inl (none, 0, true)
        else Sum.inl (none, 0, true)
      else Sum.inl (none, 0, true)
    else Sum.inl (none, 1, true)
  else if isAsciiLetter c0 ∧ c1 = ':' then
    if match s.get? 2 with | some c2 => isPathSep c2 | none => false then
      Sum.inl (some [c0, ':'], 3, true)
    else Sum.inl (some [c0, ':'], 2, false)
  else Sum.inl (none, 0, false)

/-- Node.js `path.win32.normalize`. -/
def win32Normalize (s : JStr) : JStr :=
  match s with
  | [] => ['.']
  | [c] => if c = '/' then ['\\'] else [c]
  | c0 :: c1 :: rest2 =>
    let s := c0 :: c1 :: rest2
    match win32NormalizeRoot s c0 c1 with
    | Sum.inr early => early
    | Sum.inl (device, rootEnd, isAbs) =>
      let tail0 := if rootEnd < s.length then
          normString (!isAbs) '\\' isPathSep (s.drop rootEnd)
        else []
      let tail1 := if tail0 = [] ∧ isAbs = false then ['.'] else tail0
      let tail2 := if tail1 ≠ [] ∧ lastIsSep s then tail1 ++ ['\\'] else tail1
      match device with
      | none => if isAbs then '\\' :: tail2 else tail2
      | some d => if isAbs then d ++ '\\' :: tail2 else d ++ tail2

/-- The `needsReplace` flag of Node.js `path.win32.join`: false exactly when
the first argument already starts with exactly two separators followed by a
non-separator. -/
def joinNeedsReplace (firstPart : JStr) : Bool :=
  match firstPart with
  | f0 :: f1 :: f2 :: _ => !(isPathSep f0 && isPathSep f1 && !isPathSep f2)
  | _ => true

/-- Node.js `path.win32.join`, final step shared by the argument cases:
the incomplete-UNC `needsReplace` fixup followed by normalization. -/
def win32JoinAux (joined firstPart : JStr) : JStr :=
  let j :=
    if joinNeedsReplace firstPart then
      let n := countWhile isPathSep joined
      if n ≥ 2 then '\\' :: joined.drop n else joined
    else joined
  win32Normalize j

/-- Node.js `path.win32.join` restricted to two arguments (the only arity the
source uses). -/
def win32Join (a b : JStr) : JStr :=
  match a, b with
  | [], [] => ['.']
  | [], b => win32JoinAux b b
  | a, [] => win32JoinAux a a
  | a, b => win32JoinAux (a ++ '\\' :: b) a

/-- The npm `untildify` package (external collaborator): replace a leading
`~` that is followed by the end of the string, `/`, or `\`, with the home
directory; identity when the home directory is unknown (empty). -/
def untildify (home : JStr) (s : JStr) : JStr :=
  if home = [] then s
  else
    match s with
    | '~' :: rest =>
      if rest = [] ∨ rest.get? 0 = some '/' ∨ rest.get? 0 = some '\\' then home ++ rest
      else s
    | _ => s

/-- The convention-detection step of `getPathDetails` (path module lines
117-128).  `hostIsWindows` stands for `path === path.win32`, i.e. the OS of
the machine the editor runs on; `fsPath` is the host-computed
`currentUri.fsPath` sample. -/
def detectIsWindows (scheme : String) (fsPath : JStr) (hostIsWindows isRemote : Bool) : Bool :=
  if scheme = "untitled" then
    -- assume remote server is nix only
    hostIsWindows && !isRemote
  else if scheme = "file" then !(decide (fsPath.get? 0 = some '/'))
  else false

/-- The observable facets of the `vscode.Uri` of the active document that
`getPathDetails` reads: its scheme, its `path`, and the host-computed
`fsPath` string (an external getter of the editor, supplied as data). -/
structure DocUri where
  scheme : String
  path : JStr
  fsPath : JStr
deriving DecidableEq, Repr

/-- The `PathDetails` record returned by `getPathDetails` (path module lines
55-89); `isWindows` stands for the returned `path` platform object
(`path.win32` versus `path.posix`). -/
structure PathDetails where
  fullPath : JStr
  fullDirPath : JStr
  dirName : JStr
  baseName : JStr
  partialPath : JStr
  isWindows : Bool
deriving DecidableEq, Repr

/-- `getPathDetails` (path module lines 112-172).  `home` is the host's home
directory used by `untildify`; `hostIsWindows` stands for
`path === path.win32`. -/
def getPathDetails (hostIsWindows : Bool) (home : JStr) (partialPath : JStr)
    (currentUri : DocUri) (isRemote : Bool) : PathDetails :=
  let isWindows := detectIsWindows currentUri.scheme currentUri.fsPath hostIsWindows isRemote
  -- the platform object p (path.win32 versus path.posix): its separator,
  -- absoluteness test and join primitive
  let sep : Char := if isWindows then '\\' else '/'
  let pIsAbsolute := if isWindows then win32IsAbsolute else posixIsAbsolute
  let pJoin := if isWindows then win32Join else posixJoin
  -- normalize / to \ on windows
  let partialPath1 := if isWindows then slashToBackslash partialPath else partialPath
  let updatedPartialPath := partialPath1
  -- untildify only for the 'file' scheme or a local 'untitled' document
  let partialPath2 :=
    if currentUri.scheme = "file" ∨ (currentUri.scheme = "untitled" ∧ isRemote = false) then
      untildify home partialPath1
    else partialPath1
  let dnbn := separatePath partialPath2 sep
  let dirName := dnbn.1
  let baseName := dnbn.2
  let fullDirPath :=
    if pIsAbsolute dirName = true then dirName
    else pJoin (separatePath (if isWindows then currentUri.fsPath else currentUri.path) sep).1 dirName
  let fullPath := pJoin fullDirPath baseName
  { fullPath := fullPath, fullDirPath := fullDirPath, dirName := dirName,
    baseName := baseName, partialPath := updatedPartialPath, isWindows := isWindows }

/-- The observable facets of a `vscode.Uri` used by `resolveUri` and
`uriToFsPath`: scheme, authority and path. -/
structure Uri where
  scheme : String
  authority : JStr
  path : JStr
deriving DecidableEq, Repr

/-- `vscode.Uri.file` (external collaborator; the vscode implementation the
repository links to).  On a Windows host backslashes are first rewritten to
slashes; a leading `//host/rest` is folded into the authority; a path not
starting with `/` gets one prepended (`file`-scheme reference resolution). -/
def uriFile (hostIsWindows : Bool) (p : JStr) : Uri :=
  let p1 := if hostIsWindows then p.map (fun c => if c = '\\' then '/' else c) else p
  let ap :=
    if p1.get? 0 = some '/' ∧ p1.get? 1 = some '/' then
      match indexOfFrom p1 '/' 2 with
      | none => (p1.drop 2, ['/'])
      | some idx =>
        let rest := p1.drop idx
        (jsSlice p1 2 idx, if rest = [] then ['/'] else rest)
    else ([], p1)
  let p3 := if ap.2.get? 0 = some '/' then ap.2 else '/' :: ap.2
  { scheme := "file", authority := ap.1, path := p3 }

/-- Scanner for the tail of the regex alternative `^\\\\.+\\`: after the two
leading backslashes, look for at least one regex-dot character (anything but
a line terminator) followed by a backslash.  `consumed1` records whether the
`.+` has consumed at least one character. -/
def uncAux (consumed1 : Bool) : JStr → Bool
  | [] => false
  | c :: rest =>
    (consumed1 && c = '\\') ||
      (!(c = '\n' || c = '\r' || c = '\u2028' || c = '\u2029') && uncAux true rest)

/-- The anchored alternative `^(\\\\.+\\)` of the validity regex in
`resolveUri` (path module line 308). -/
def uncPrefixTest (s : JStr) : Bool :=
  match s with
  | '\\' :: '\\' :: rest => uncAux false rest
  | _ => false

/-- The unanchored alternative `([a-zA-Z]:\\)` of the validity regex in
`resolveUri` (path module line 308): a drive-letter sequence anywhere. -/
def driveAnywhereTest : JStr → Bool
  | c1 :: c2 :: c3 :: rest =>
    (isAsciiLetter c1 && c2 = ':' && c3 = '\\') || driveAnywhereTest (c2 :: c3 :: rest)
  | _ => false

/-- `/^(\\\\.+\\)|([a-zA-Z]:\\)/.test(absolutePath)` from `resolveUri`. -/
def winPathTest (s : JStr) : Bool := uncPrefixTest s || driveAnywhereTest s

/-- `resolveUri` (path module lines 301-329; `getUriPath` in
`src/util/path.ts` lines 83-104).  `hostIsWindows` parametrizes the
platform-dependent behaviour of `vscode.Uri.file`. -/
def resolveUri (hostIsWindows : Bool) (absolutePath : JStr) (sep : Char)
    (currentUri : Uri) (isRemote : Bool) : Option Uri :=
  if sep = '\\' then
    -- windows: require a UNC path or a windows drive
    if winPathTest absolutePath then
      -- create a new local Uri; only local resources are supported
      some (uriFile hostIsWindows absolutePath)
    else none
  else
    if absolutePath.get? 0 = some sep then
      -- search local file when the active document is a local untitled doc
      some { currentUri with
             scheme := if isRemote = false ∧ currentUri.scheme = "untitled" then "file"
                       else currentUri.scheme,
             path := absolutePath }
    else none

/-- `uriToFsPath` (path module lines 410-428): `fsPath` with slashes kept as
`/` and the drive letter normalized to uppercase. -/
def uriToFsPath (u : Uri) : JStr :=
  if u.authority ≠ [] ∧ u.path.length > 1 ∧ u.scheme = "file" then
    -- unc path: file://shares/c$/far/boo
    '/' :: '/' :: (u.authority ++ u.path)
  else
    match u.path with
    | '/' :: c :: rest =>
      if hasDriveLetter ('/' :: c :: rest) 1 then
        -- windows drive letter: /c:/far/boo becomes C:/far/boo
        c.toUpper :: rest
      else u.path
    | _ => u.path

/-- `vscode.FileType.Directory`. -/
def fileTypeDirectory : Nat := 2

/-- `readDirectory` (path module lines 331-350).  The enumeration of the
directory by the editor is an external effect; it is supplied as
`directoryResult`, with `none` standing for any thrown failure. -/
def readDirectory (directoryResult : Option (List (JStr × Nat))) (sep : Char)
    (addCurrentAndUp : Bool) : List JStr :=
  match directoryResult with
  | none => []
  | some ds =>
    (ds.map (fun d => d.1 ++ (if d.2 = fileTypeDirectory then [sep] else [])))
      ++ (if addCurrentAndUp then [['.', sep], ['.', '.', sep]] else [])

theorem lastIndexOf_eq_none (s : JStr) (c : Char) (h : c ∉ s) : lastIndexOf s c = none := by
  induction s with
  | nil => rfl
  | cons x xs ih =>
    simp only [List.mem_cons, not_or] at h
    simp only [lastIndexOf, ih h.2]
    simp [Ne.symm h.1]

theorem lastIndexOf_append_cons (a b : JStr) (c : Char) (hb : c ∉ b) :
    lastIndexOf (a ++ c :: b) c = some a.length := by
  induction a with
  | nil => simp [lastIndexOf, lastIndexOf_eq_none b c hb]
  | cons x xs ih => simp [lastIndexOf, ih]

theorem indexOfAux_ne_none (l : JStr) (c : Char) (i : Nat) (h : c ∈ l) :
    indexOfAux l c i ≠ none := by
  induction l generalizing i with
  | nil => simp at h
  | cons x xs ih =>
    simp only [indexOfAux]
    rcases List.mem_cons.mp h with h1 | h2
    · simp [h1.symm]
    · by_cases hx : x = c
      · simp [hx]
      · simpa [hx] using ih (i + 1) h2

theorem take_append_cons (a b : JStr) (c : Char) :
    (a ++ c :: b).take (a.length + 1) = a ++ [c] := by
  have h : a ++ c :: b = (a ++ [c]) ++ b := by simp
  have hl : (a ++ [c]).length = a.length + 1 := by simp
  rw [h, ← hl, List.take_left]

theorem drop_append_cons (a b : JStr) (c : Char) :
    (a ++ c :: b).drop (a.length + 1) = b := by
  have h : a ++ c :: b = (a ++ [c]) ++ b := by simp
  have hl : (a ++ [c]).length = a.length + 1 := by simp
  rw [h, ← hl, List.drop_left]

/-- General splitting behaviour of `separatePath`: splitting `a ++ sep ++ b`
where `b` is separator-free yields `(a ++ sep, b)`, except in the
incomplete-UNC corner (`sep = backslash`, `a = single backslash`, `b` not
empty), where the whole string is returned as directory part. -/
theorem separatePath_split (a b : JStr) (sep : Char) (hb : sep ∉ b)
    (hexc : ¬(sep = '\\' ∧ a = ['\\'] ∧ b ≠ [])) :
    separatePath (a ++ sep :: b) sep = (a ++ [sep], b) := by
  unfold separatePath
  rw [lastIndexOf_append_cons a b sep hb]
  have htake := take_append_cons a b sep
  have hdrop := drop_append_cons a b sep
  by_cases hs : sep = '\\'
  · subst hs
    -- examine whether the incomplete-UNC branch can fire
    match a with
    | [] =>
      match b with
      | [] => simp [indexOfFrom, indexOfAux]
      | y :: b' =>
        have hy : y ≠ '\\' := fun h => hb (h ▸ List.mem_cons_self y b')
        simp [hy]
    | [x] =>
      by_cases hx : x = '\\'
      · subst hx
        have hbnil : b = [] := by
          by_contra hne
          exact hexc ⟨rfl, rfl, hne⟩
        subst hbnil
        simp [indexOfFrom, indexOfAux]
      · simp [hx]
    | x :: y :: a' =>
      have hmem : '\\' ∈ (x :: y :: a' ++ '\\' :: b).drop 2 := by
        simp
      have hne := indexOfAux_ne_none _ '\\' 2 hmem
      simp only [indexOfFrom] at *
      simp only [List.append_eq, List.cons_append] at htake hdrop ⊢
      rw [if_neg]
      · exact Prod.ext (by simp only [List.cons_append]; exact htake)
          (by simp only [List.cons_append]; exact hdrop)
      · rintro ⟨-, -, -, hnone⟩
        exact hne hnone
  · rw [if_neg (fun hc => hs hc.1)]
    exact Prod.ext htake hdrop

theorem posixNormalize_abs (s : JStr) (h : s.get? 0 = some '/') :
    posixIsAbsolute (posixNormalize s) = true := by
  have hne : s ≠ [] := by intro he; rw [he] at h; exact Option.noConfusion h
  unfold posixNormalize
  rw [if_neg hne]
  simp only [h]
  split
  · simp [posixIsAbsolute]
  · simp [posixIsAbsolute]


theorem posixJoin_abs (a b : JStr) (h : posixIsAbsolute a = true) :
    posixIsAbsolute (posixJoin a b) = true := by
  have h' : a.get? 0 = some '/' := by simpa [posixIsAbsolute] using h
  match a, b with
  | [], _ => simp at h'
  | x :: a', [] => exact posixNormalize_abs _ h'
  | x :: a', y :: b' => exact posixNormalize_abs _ (by simpa using h')

theorem isAsciiLetter_not_sep (c : Char) (h : isAsciiLetter c = true) :
    isPathSep c = false := by
  by_cases h1 : c = '/'
  · subst h1; exact absurd h (by decide)
  · by_cases h2 : c = '\\'
    · subst h2; exact absurd h (by decide)
    · simp [isPathSep, h1, h2]

theorem win32IsAbsolute_cons_sep (c : Char) (t : JStr) (h : isPathSep c = true) :
    win32IsAbsolute (c :: t) = true := by
  unfold win32IsAbsolute
  simp [h]

theorem win32NormalizeRoot_sep_shape (s : JStr) (c0 c1 : Char) (h : isPathSep c0 = true) :
    (∃ e, win32NormalizeRoot s c0 c1 = Sum.inr ('\\' :: e)) ∨
    (∃ re, win32NormalizeRoot s c0 c1 = Sum.inl (none, re, true)) ∨
    (∃ d re, win32NormalizeRoot s c0 c1 = Sum.inl (some ('\\' :: d), re, true)) := by
  unfold win32NormalizeRoot
  rw [if_pos h]
  by_cases h1 : isPathSep c1 = true
  · rw [if_pos h1]
    dsimp only
    split
    · split
      · split
        · exact Or.inl ⟨_, rfl⟩
        · split
          · exact Or.inr (Or.inr ⟨_, _, rfl⟩)
          · exact Or.inr (Or.inl ⟨_, rfl⟩)
      · exact Or.inr (Or.inl ⟨_, rfl⟩)
    · exact Or.inr (Or.inl ⟨_, rfl⟩)
  · rw [if_neg h1]
    exact Or.inr (Or.inl ⟨_, rfl⟩)

theorem win32Normalize_of_root_inr (c0 c1 : Char) (r e : JStr)
    (hroot : win32NormalizeRoot (c0 :: c1 :: r) c0 c1 = Sum.inr e) :
    win32Normalize (c0 :: c1 :: r) = e := by
  simp only [win32Normalize, hroot]

theorem win32Normalize_of_root_none_abs (c0 c1 : Char) (r : JStr) (re : Nat)
    (hroot : win32NormalizeRoot (c0 :: c1 :: r) c0 c1 = Sum.inl (none, re, true)) :
    ∃ t, win32Normalize (c0 :: c1 :: r) = '\\' :: t := by
  simp only [win32Normalize, hroot]
  exact ⟨_, rfl⟩

theorem win32Normalize_of_root_some_abs (c0 c1 : Char) (r d : JStr) (re : Nat)
    (hroot : win32NormalizeRoot (c0 :: c1 :: r) c0 c1 = Sum.inl (some d, re, true)) :
    ∃ t, win32Normalize (c0 :: c1 :: r) = d ++ '\\' :: t := by
  simp only [win32Normalize, hroot]
  exact ⟨_, rfl⟩

theorem win32Normalize_abs_of_sep (s : JStr) (c : Char) (hc : s.get? 0 = some c)
    (hsep : isPathSep c = true) : win32IsAbsolute (win32Normalize s) = true := by
  match s with
  | [] => simp at hc
  | [c0] =>
    have hc0 : c0 = c := by simpa using hc
    subst hc0
    show win32IsAbsolute (if c0 = '/' then ['\\'] else [c0]) = true
    by_cases h0 : c0 = '/'
    · rw [if_pos h0]; decide
    · rw [if_neg h0]
      exact win32IsAbsolute_cons_sep c0 [] hsep
  | c0 :: c1 :: r =>
    have hc0 : c0 = c := by simpa using hc
    subst hc0
    rcases win32NormalizeRoot_sep_shape (c0 :: c1 :: r) c0 c1 hsep with
      ⟨e, he⟩ | ⟨re, hre⟩ | ⟨d, re, hd⟩
    · rw [win32Normalize_of_root_inr c0 c1 r _ he]
      exact win32IsAbsolute_cons_sep '\\' e (by decide)
    · rcases win32Normalize_of_root_none_abs c0 c1 r re hre with ⟨t, ht⟩
      rw [ht]
      exact win32IsAbsolute_cons_sep '\\' t (by decide)
    · rcases win32Normalize_of_root_some_abs c0 c1 r _ re hd with ⟨t, ht⟩
      rw [ht]
      exact win32IsAbsolute_cons_sep '\\' _ (by decide)

theorem win32JoinAux_abs_of_sep (j fp : JStr) (c : Char) (hc : j.get? 0 = some c)
    (hsep : isPathSep c = true) : win32IsAbsolute (win32JoinAux j fp) = true := by
  unfold win32JoinAux
  by_cases h1 : joinNeedsReplace fp = true
  · rw [if_pos h1]
    by_cases h2 : countWhile isPathSep j ≥ 2
    · rw [if_pos h2]
      exact win32Normalize_abs_of_sep _ '\\' rfl (by decide)
    · rw [if_neg h2]
      exact win32Normalize_abs_of_sep _ c hc hsep
  · rw [if_neg h1]
    exact win32Normalize_abs_of_sep _ c hc hsep

theorem win32NormalizeRoot_drive (c : Char) (c2 : Char) (tail : JStr)
    (hletter : isAsciiLetter c = true) (hc2 : isPathSep c2 = true) :
    win32NormalizeRoot (c :: ':' :: c2 :: tail) c ':' = Sum.inl (some [c, ':'], 3, true) := by
  unfold win32NormalizeRoot
  rw [if_neg (by simp [isAsciiLetter_not_sep c hletter])]
  rw [if_pos ⟨hletter, rfl⟩]
  rw [if_pos]
  have hg2 : (c :: ':' :: c2 :: tail).get? 2 = some c2 := rfl
  rw [hg2]
  exact hc2

theorem win32Join_abs (a b : JStr) (h : win32IsAbsolute a = true) :
    win32IsAbsolute (win32Join a b) = true := by
  match a with
  | [] => simp [win32IsAbsolute] at h
  | c :: a' =>
    by_cases hsep : isPathSep c = true
    · -- separator-headed absolute path
      match b with
      | [] => exact win32JoinAux_abs_of_sep (c :: a') (c :: a') c rfl hsep
      | y :: b' => exact win32JoinAux_abs_of_sep ((c :: a') ++ '\\' :: y :: b') (c :: a') c rfl hsep
    · -- drive-letter absolute path: a is letter, colon, separator, rest
      have hdrive : ∃ c2 rest, a' = ':' :: c2 :: rest ∧ isAsciiLetter c = true ∧ isPathSep c2 = true := by
        simp only [win32IsAbsolute] at h
        rcases Bool.or_eq_true_iff.mp h with h1 | h2
        · exact absurd h1 hsep
        · match a' with
          | [] => exact Bool.noConfusion h2
          | [x] => exact Bool.noConfusion h2
          | x :: y :: rest =>
            rcases Bool.and_eq_true_iff.mp h2 with ⟨h3, hy⟩
            rcases Bool.and_eq_true_iff.mp h3 with ⟨hl, hx⟩
            rw [decide_eq_true_eq] at hx
            exact ⟨y, rest, by rw [hx], hl, hy⟩
      rcases hdrive with ⟨c2, rest, ha', hletter, hc2⟩
      subst ha'
      have hjoin : ∀ t : JStr,
          win32IsAbsolute (win32JoinAux (c :: ':' :: c2 :: t) (c :: ':' :: c2 :: rest)) = true := by
        intro t
        unfold win32JoinAux
        rw [if_pos (show joinNeedsReplace (c :: ':' :: c2 :: rest) = true by
          simp [joinNeedsReplace, isAsciiLetter_not_sep c hletter])]
        have hcw : countWhile isPathSep (c :: ':' :: c2 :: t) = 0 := by
          unfold countWhile
          rw [isAsciiLetter_not_sep c hletter]
          rfl
        rw [hcw, if_neg (by norm_num)]
        rcases win32Normalize_of_root_some_abs c ':' (c2 :: t) [c, ':'] 3
            (win32NormalizeRoot_drive c c2 t hletter hc2) with ⟨u, hu⟩
        rw [hu]
        simp [win32IsAbsolute, hletter, isPathSep]
      match b with
      | [] => exact hjoin rest
      | y :: b' => simpa using hjoin (rest ++ '\\' :: y :: b')

/-- C2: `resolveUri` returns the explicit invalid result (`none`) for a
POSIX-convention path whose first character is not `/`, for the Windows
path `C:foo` (no backslash after the colon), and for the Windows path
`\\onlyhost` (UNC prefix with no trailing share segment). -/
theorem c2_rejects :
    (∀ (host remote : Bool) (ref : Uri) (p : JStr),
        p.get? 0 ≠ some '/' → resolveUri host p '/' ref remote = none)
    ∧ (∀ (host remote : Bool) (ref : Uri),
        resolveUri host (jstr "C:foo") '\\' ref remote = none)
    ∧ (∀ (host remote : Bool) (ref : Uri),
        resolveUri host (jstr "\\\\onlyhost") '\\' ref remote = none) := by
  refine ⟨?_, ?_, ?_⟩
  · intro host remote ref p hp
    unfold resolveUri
    rw [if_neg (by decide)]
    rw [if_neg hp]
  · intro host remote ref
    unfold resolveUri
    rw [if_pos rfl]
    rw [if_neg (by decide)]
  · intro host remote ref
    unfold resolveUri
    rw [if_pos rfl]
    rw [if_neg (by decide)]

/-- Witness for C2: a concrete POSIX path not starting with `/` is rejected. -/
theorem c2_rejects_witness :
    resolveUri false (jstr "abc") '/' { scheme := "file", authority := [], path := jstr "/x" } false = none :=
  c2_rejects.1 false false { scheme := "file", authority := [], path := jstr "/x" } (jstr "abc") (by decide)

/-- C3 counterexample: for the remote-file scheme with an `fsPath` sample not
starting with `/`, convention detection yields POSIX (`false`), not the
Windows convention (`true`) asserted by the claim. -/
theorem c3_counterexample :
    detectIsWindows "vscode-remote" (jstr "C:\\x") true false = false := by decide

/-- C3 (amended): for the remote-file scheme, convention detection returns
POSIX regardless of the host-path sample, the host OS, or the remote flag;
only the local-file scheme can yield the Windows convention for saved
documents. -/
theorem c3_remote_always_posix (sample : JStr) (host remote : Bool) :
    detectIsWindows "vscode-remote" sample host remote = false := rfl

/-- C4: for an unsaved-buffer (untitled) context, convention detection
returns Windows exactly when the host machine's own OS is Windows and the
session is not remote; in particular a remote session always yields POSIX. -/
theorem c4_untitled_detection :
    (∀ (sample : JStr) (host remote : Bool),
        detectIsWindows "untitled" sample host remote = (host && !remote))
    ∧ (∀ (sample : JStr) (host : Bool),
        detectIsWindows "untitled" sample host true = false) := by
  constructor
  · intro sample host remote
    rfl
  · intro sample host
    show (host && !true) = false
    simp

/-- C6 counterexample: with `a` the single backslash string, `sep` the
Windows separator and `b = "x"`, the split hits the incomplete-UNC special
case and returns the whole string as directory part, not `(a ++ sep, b)`. -/
theorem c6_counterexample :
    separatePath (jstr "\\" ++ '\\' :: jstr "x") '\\' ≠ (jstr "\\" ++ ['\\'], jstr "x") := by
  decide

/-- C6 (amended): for all `a`, `b` and separator `sep` with `b` free of
`sep`, splitting `a ++ sep ++ b` yields `(a ++ sep, b)` — except in the
incomplete-UNC corner where `sep` is the Windows separator, `a` is the
single-backslash string and `b` is nonempty (there the whole string is
returned as directory part with an empty base name). -/
theorem c6_split_general (a b : JStr) (sep : Char) (hb : sep ∉ b)
    (hexc : ¬(sep = '\\' ∧ a = ['\\'] ∧ b ≠ [])) :
    separatePath (a ++ sep :: b) sep = (a ++ [sep], b) :=
  separatePath_split a b sep hb hexc

/-- Witness for C6: splitting `ab/c` at `/`. -/
theorem c6_split_witness :
    separatePath (jstr "ab" ++ '/' :: jstr "c") '/' = (jstr "ab" ++ ['/'], jstr "c") :=
  c6_split_general (jstr "ab") (jstr "c") '/' (by decide) (by decide)

/-- C7 counterexample: with a remote session and an untitled reference
handle, the accepted POSIX path keeps the `untitled` scheme — it is not
upgraded to the local-file scheme as the claim asserts. -/
theorem c7_counterexample :
    (resolveUri false (jstr "/ok") '/' { scheme := "untitled", authority := [], path := jstr "x" } true).map Uri.scheme = some "untitled"
    ∧ (resolveUri false (jstr "/ok") '/' { scheme := "untitled", authority := [], path := jstr "x" } true).map Uri.scheme ≠ some "file" := by
  constructor
  · decide
  · decide

/-- C7 (amended): an accepted POSIX-convention path preserves the reference
handle's scheme and authority, except that an untitled scheme is upgraded
to the `file` scheme only when the session is not remote. -/
theorem c7_posix_preserves (host remote : Bool) (ref : Uri) (p : JStr)
    (hp : p.get? 0 = some '/') :
    (resolveUri host p '/' ref remote).map Uri.authority = some ref.authority
    ∧ (resolveUri host p '/' ref remote).map Uri.scheme
        = some (if remote = false ∧ ref.scheme = "untitled" then "file" else ref.scheme) := by
  unfold resolveUri
  rw [if_neg (by decide), if_pos hp]
  exact ⟨rfl, rfl⟩

/-- Witness for C7: a local untitled reference is upgraded to `file`. -/
theorem c7_posix_preserves_witness :
    (resolveUri false (jstr "/ok") '/' { scheme := "untitled", authority := [], path := jstr "x" } false).map Uri.scheme = some "file" := by
  have h := (c7_posix_preserves false false { scheme := "untitled", authority := [], path := jstr "x" } (jstr "/ok") (by decide)).2
  simpa using h

/-- C9: directory listing returns the empty sequence on any enumeration
failure; on success the children appear in listing order, each name suffixed
with the separator exactly when the child is a directory, and the
`.`/`..` pseudo-entries (separator-suffixed) are appended at the end when
requested. -/
theorem c9_readDirectory :
    (∀ (sep : Char) (add : Bool), readDirectory none sep add = [])
    ∧ (∀ (ds : List (JStr × Nat)) (sep : Char) (i : Nat),
        (readDirectory (some ds) sep false).get? i
          = (ds.get? i).map (fun d => d.1 ++ (if d.2 = fileTypeDirectory then [sep] else [])))
    ∧ (∀ (ds : List (JStr × Nat)) (sep : Char),
        readDirectory (some ds) sep true
          = readDirectory (some ds) sep false ++ [['.', sep], ['.', '.', sep]]) := by
  refine ⟨fun sep add => rfl, ?_, ?_⟩
  · intro ds sep i
    simp [readDirectory, List.get?_eq_getElem?, List.getElem?_map]
  · intro ds sep
    simp [readDirectory]

/-- C10: the validity regular expression of `resolveUri` anchors only its
UNC alternative, so the string `abc\C:\x` — not an absolute Windows path —
is nevertheless accepted (a handle is produced instead of `none`). -/
theorem c10_unanchored_accept (host remote : Bool) (ref : Uri) :
    win32IsAbsolute (jstr "abc\\C:\\x") = false
    ∧ (resolveUri host (jstr "abc\\C:\\x") '\\' ref remote).isSome = true := by
  constructor
  · decide
  · unfold resolveUri
    rw [if_pos rfl, if_pos (by decide)]
    rfl

theorem fullDir_abs (isWin : Bool) (dirName ctxDir : JStr)
    (h : (if isWin then win32IsAbsolute else posixIsAbsolute) ctxDir = true) :
    (if isWin then win32IsAbsolute else posixIsAbsolute)
      (if (if isWin then win32IsAbsolute else posixIsAbsolute) dirName = true then dirName
       else (if isWin then win32Join else posixJoin) ctxDir dirName) = true := by
  by_cases hd : (if isWin then win32IsAbsolute else posixIsAbsolute) dirName = true
  · rw [if_pos hd]
    exact hd
  · rw [if_neg hd]
    cases isWin with
    | false => exact posixJoin_abs ctxDir dirName (by simpa using h)
    | true => exact win32Join_abs ctxDir dirName (by simpa using h)

/-- C5 counterexample: for an untitled context whose own path is relative
(`Untitled-1`) and the relative input `a.txt`, the returned `fullDirPath` is
`.`, which is not absolute under the detected (POSIX) convention — so the
second half of the claimed invariant fails. -/
theorem c5_counterexample :
    (getPathDetails false (jstr "/home/u") (jstr "a.txt")
        { scheme := "untitled", path := jstr "Untitled-1", fsPath := jstr "Untitled-1" } false).isWindows = false
    ∧ posixIsAbsolute (getPathDetails false (jstr "/home/u") (jstr "a.txt")
        { scheme := "untitled", path := jstr "Untitled-1", fsPath := jstr "Untitled-1" } false).fullDirPath = false := by
  constructor
  · decide
  · decide

/-- C5 (amended): for every input, `fullPath` is the platform join of
`fullDirPath` and `baseName`; and `fullDirPath` is absolute under the
detected convention provided the directory part of the context's own sample
path (its `fsPath` on Windows, its `path` otherwise) is absolute — the
guarantee does not extend to untitled contexts with relative paths. -/
theorem c5_invariant (host : Bool) (home input : JStr) (ctx : DocUri) (remote : Bool) :
    (getPathDetails host home input ctx remote).fullPath
      = (if (getPathDetails host home input ctx remote).isWindows then win32Join else posixJoin)
          (getPathDetails host home input ctx remote).fullDirPath
          (getPathDetails host home input ctx remote).baseName
    ∧ ((if (getPathDetails host home input ctx remote).isWindows then win32IsAbsolute else posixIsAbsolute)
          ((separatePath
              (if (getPathDetails host home input ctx remote).isWindows then ctx.fsPath else ctx.path)
              (if (getPathDetails host home input ctx remote).isWindows then '\\' else '/')).1) = true
        → (if (getPathDetails host home input ctx remote).isWindows then win32IsAbsolute else posixIsAbsolute)
            (getPathDetails host home input ctx remote).fullDirPath = true) := by
  constructor
  · rfl
  · intro h
    exact fullDir_abs _ _ _ h

/-- Witness for C5: a saved local POSIX document with a relative input. -/
theorem c5_invariant_witness :
    (if (getPathDetails false (jstr "/home/u") (jstr "../sibling.txt")
          { scheme := "file", path := jstr "/home/user/doc.txt", fsPath := jstr "/home/user/doc.txt" } false).isWindows
     then win32IsAbsolute else posixIsAbsolute)
      (getPathDetails false (jstr "/home/u") (jstr "../sibling.txt")
          { scheme := "file", path := jstr "/home/user/doc.txt", fsPath := jstr "/home/user/doc.txt" } false).fullDirPath = true :=
  (c5_invariant false (jstr "/home/u") (jstr "../sibling.txt")
      { scheme := "file", path := jstr "/home/user/doc.txt", fsPath := jstr "/home/user/doc.txt" } false).2 (by decide)

theorem getPathDetails_dirName_eq (host : Bool) (home input : JStr) (ctx : DocUri) (remote : Bool) :
    (getPathDetails host home input ctx remote).dirName
      = (separatePath
          (if ctx.scheme = "file" ∨ (ctx.scheme = "untitled" ∧ remote = false) then
             untildify home
               (if detectIsWindows ctx.scheme ctx.fsPath host remote then slashToBackslash input else input)
           else
             (if detectIsWindows ctx.scheme ctx.fsPath host remote then slashToBackslash input else input))
          (if detectIsWindows ctx.scheme ctx.fsPath host remote then '\\' else '/')).1 := rfl

theorem getPathDetails_baseName_eq (host : Bool) (home input : JStr) (ctx : DocUri) (remote : Bool) :
    (getPathDetails host home input ctx remote).baseName
      = (separatePath
          (if ctx.scheme = "file" ∨ (ctx.scheme = "untitled" ∧ remote = false) then
             untildify home
               (if detectIsWindows ctx.scheme ctx.fsPath host remote then slashToBackslash input else input)
           else
             (if detectIsWindows ctx.scheme ctx.fsPath host remote then slashToBackslash input else input))
          (if detectIsWindows ctx.scheme ctx.fsPath host remote then '\\' else '/')).2 := rfl

theorem slashToBackslash_id (l : JStr) (h : '/' ∉ l) : slashToBackslash l = l := by
  induction l with
  | nil => rfl
  | cons c rest ih =>
    simp only [List.mem_cons, not_or] at h
    simp only [slashToBackslash, List.map_cons]
    rw [if_neg (Ne.symm h.1)]
    have := ih h.2
    simp only [slashToBackslash] at this
    rw [this]

theorem untildify_expand (home : JStr) (c : Char) (rest : JStr) (hhome : home ≠ [])
    (hc : c = '/' ∨ c = '\\') :
    untildify home ('~' :: c :: rest) = home ++ c :: rest := by
  unfold untildify
  rw [if_neg hhome]
  rcases hc with hc | hc
  · subst hc; simp
  · subst hc; simp

theorem c8aux_remote (host : Bool) (home upath fs : JStr) (remote : Bool) (rest : JStr)
    (hrest : '/' ∉ rest) :
    (getPathDetails host home ('~' :: '/' :: rest)
        { scheme := "vscode-remote", path := upath, fsPath := fs } remote).dirName = ['~', '/']
    ∧ (getPathDetails host home ('~' :: '/' :: rest)
        { scheme := "vscode-remote", path := upath, fsPath := fs } remote).baseName = rest := by
  have hcond : ¬((("vscode-remote" : String) = "file")
      ∨ (("vscode-remote" : String) = "untitled" ∧ remote = false)) := by
    rintro (h | ⟨h, -⟩) <;> exact absurd h (by decide)
  have hdet : detectIsWindows "vscode-remote" fs host remote = false := rfl
  have hsplit := separatePath_split ['~'] rest '/' hrest (fun h => absurd h.1 (by decide))
  rw [show ((['~'] ++ '/' :: rest : JStr)) = '~' :: '/' :: rest from rfl] at hsplit
  constructor
  · rw [getPathDetails_dirName_eq]
    simp only [if_neg hcond, hdet, Bool.false_eq_true, if_false]
    rw [hsplit]
    rfl
  · rw [getPathDetails_baseName_eq]
    simp only [if_neg hcond, hdet, Bool.false_eq_true, if_false]
    rw [hsplit]



theorem c8aux_file_posix (host : Bool) (home upath fsRest : JStr) (remote : Bool) (rest : JStr)
    (hhome : home ≠ []) (hrest : '/' ∉ rest) :
    (getPathDetails host home ('~' :: '/' :: rest)
        { scheme := "file", path := upath, fsPath := '/' :: fsRest } remote).dirName = home ++ ['/']
    ∧ (getPathDetails host home ('~' :: '/' :: rest)
        { scheme := "file", path := upath, fsPath := '/' :: fsRest } remote).baseName = rest := by
  have hdet : detectIsWindows "file" ('/' :: fsRest) host remote = false := rfl
  have hcond : ("file" : String) = "file" ∨ (("file" : String) = "untitled" ∧ remote = false) :=
    Or.inl rfl
  have huntil := untildify_expand home '/' rest hhome (Or.inl rfl)
  have hsplit := separatePath_split home rest '/' hrest (fun h => absurd h.1 (by decide))
  constructor
  · rw [getPathDetails_dirName_eq, if_pos hcond, hdet]
    simp only [Bool.false_eq_true, if_false]
    rw [huntil, hsplit]
  · rw [getPathDetails_baseName_eq, if_pos hcond, hdet]
    simp only [Bool.false_eq_true, if_false]
    rw [huntil, hsplit]

theorem c8aux_untitled_remote (host : Bool) (home upath fs : JStr) (rest : JStr)
    (hrest : '/' ∉ rest) :
    (getPathDetails host home ('~' :: '/' :: rest)
        { scheme := "untitled", path := upath, fsPath := fs } true).dirName = ['~', '/']
    ∧ (getPathDetails host home ('~' :: '/' :: rest)
        { scheme := "untitled", path := upath, fsPath := fs } true).baseName = rest := by
  have hdet : detectIsWindows "untitled" fs host true = false := by
    show (host && !true) = false
    simp
  have hcond : ¬((("untitled" : String) = "file")
      ∨ (("untitled" : String) = "untitled" ∧ true = false)) := by
    rintro (h | ⟨-, h⟩)
    · exact absurd h (by decide)
    · exact absurd h (by decide)
  have hsplit := separatePath_split ['~'] rest '/' hrest (fun h => absurd h.1 (by decide))
  rw [show ((['~'] ++ '/' :: rest : JStr)) = '~' :: '/' :: rest from rfl] at hsplit
  constructor
  · rw [getPathDetails_dirName_eq, if_neg hcond, hdet]
    simp only [Bool.false_eq_true, if_false]
    rw [hsplit]
    rfl
  · rw [getPathDetails_baseName_eq, if_neg hcond, hdet]
    simp only [Bool.false_eq_true, if_false]
    rw [hsplit]

theorem c8aux_untitled_local (home upath fs : JStr) (rest : JStr)
    (hhome : home ≠ []) (hrest : '/' ∉ rest) :
    (getPathDetails false home ('~' :: '/' :: rest)
        { scheme := "untitled", path := upath, fsPath := fs } false).dirName = home ++ ['/']
    ∧ (getPathDetails false home ('~' :: '/' :: rest)
        { scheme := "untitled", path := upath, fsPath := fs } false).baseName = rest := by
  have hdet : detectIsWindows "untitled" fs false false = false := rfl
  have hcond : ("untitled" : String) = "file" ∨ (("untitled" : String) = "untitled" ∧ false = false) :=
    Or.inr ⟨rfl, rfl⟩
  have huntil := untildify_expand home '/' rest hhome (Or.inl rfl)
  have hsplit := separatePath_split home rest '/' hrest (fun h => absurd h.1 (by decide))
  constructor
  · rw [getPathDetails_dirName_eq, if_pos hcond, hdet]
    simp only [Bool.false_eq_true, if_false]
    rw [huntil, hsplit]
  · rw [getPathDetails_baseName_eq, if_pos hcond, hdet]
    simp only [Bool.false_eq_true, if_false]
    rw [huntil, hsplit]

theorem c8aux_file_windows (host : Bool) (home upath fs : JStr) (remote : Bool) (rest : JStr)
    (hfs : fs.get? 0 ≠ some '/') (hhome : home ≠ []) (hbh : '\\' ∉ home)
    (hrest : '/' ∉ rest) (hbrest : '\\' ∉ rest) :
    (getPathDetails host home ('~' :: '/' :: rest)
        { scheme := "file", path := upath, fsPath := fs } remote).dirName = home ++ ['\\']
    ∧ (getPathDetails host home ('~' :: '/' :: rest)
        { scheme := "file", path := upath, fsPath := fs } remote).baseName = rest := by
  have hdet : detectIsWindows "file" fs host remote = true := by
    have hd : decide (fs.get? 0 = some '/') = false := decide_eq_false hfs
    unfold detectIsWindows
    rw [if_neg (by decide), if_pos rfl, hd]
    rfl
  have hcond : ("file" : String) = "file" ∨ (("file" : String) = "untitled" ∧ remote = false) :=
    Or.inl rfl
  have hslash : slashToBackslash ('~' :: '/' :: rest) = '~' :: '\\' :: rest := by
    have hid := slashToBackslash_id rest hrest
    simp only [slashToBackslash] at hid
    simp [slashToBackslash, hid]
  have huntil := untildify_expand home '\\' rest hhome (Or.inr rfl)
  have hsplit := separatePath_split home rest '\\' hbrest
    (fun h => absurd (h.2.1 ▸ List.mem_singleton_self '\\') hbh)
  constructor
  · rw [getPathDetails_dirName_eq, if_pos hcond, hdet]
    simp only [eq_self_iff_true, if_true]
    rw [hslash, huntil, hsplit]
  · rw [getPathDetails_baseName_eq, if_pos hcond, hdet]
    simp only [eq_self_iff_true, if_true]
    rw [hslash, huntil, hsplit]

/-- C8: home-marker expansion is applied exactly when the context scheme is
`file` (local-file), or the scheme is `untitled` (unsaved buffer) and the
session is not remote.  In a remote-file (`vscode-remote`) context — and in
an untitled context during a remote session — the leading `~` is kept as a
literal character sequence in the split result, while in the local cases it
is replaced by the home directory.  (Given a known, nonempty home
directory; the tail of the input is separator-free so the split is
explicit.) -/
theorem c8_untildify_exactly_when :
    (∀ (host : Bool) (home upath fs : JStr) (remote : Bool) (rest : JStr), '/' ∉ rest →
      (getPathDetails host home ('~' :: '/' :: rest)
          { scheme := "vscode-remote", path := upath, fsPath := fs } remote).dirName = ['~', '/']
      ∧ (getPathDetails host home ('~' :: '/' :: rest)
          { scheme := "vscode-remote", path := upath, fsPath := fs } remote).baseName = rest)
    ∧ (∀ (host : Bool) (home upath fs : JStr) (rest : JStr), '/' ∉ rest →
      (getPathDetails host home ('~' :: '/' :: rest)
          { scheme := "untitled", path := upath, fsPath := fs } true).dirName = ['~', '/']
      ∧ (getPathDetails host home ('~' :: '/' :: rest)
          { scheme := "untitled", path := upath, fsPath := fs } true).baseName = rest)
    ∧ (∀ (host : Bool) (home upath fsRest : JStr) (remote : Bool) (rest : JStr),
        home ≠ [] → '/' ∉ rest →
      (getPathDetails host home ('~' :: '/' :: rest)
          { scheme := "file", path := upath, fsPath := '/' :: fsRest } remote).dirName = home ++ ['/']
      ∧ (getPathDetails host home ('~' :: '/' :: rest)
          { scheme := "file", path := upath, fsPath := '/' :: fsRest } remote).baseName = rest)
    ∧ (∀ (home upath fs : JStr) (rest : JStr), home ≠ [] → '/' ∉ rest →
      (getPathDetails false home ('~' :: '/' :: rest)
          { scheme := "untitled", path := upath, fsPath := fs } false).dirName = home ++ ['/']
      ∧ (getPathDetails false home ('~' :: '/' :: rest)
          { scheme := "untitled", path := upath, fsPath := fs } false).baseName = rest)
    ∧ (∀ (host : Bool) (home upath fs : JStr) (remote : Bool) (rest : JStr),
        fs.get? 0 ≠ some '/' → home ≠ [] → '\\' ∉ home → '/' ∉ rest → '\\' ∉ rest →
      (getPathDetails host home ('~' :: '/' :: rest)
          { scheme := "file", path := upath, fsPath := fs } remote).dirName = home ++ ['\\']
      ∧ (getPathDetails host home ('~' :: '/' :: rest)
          { scheme := "file", path := upath, fsPath := fs } remote).baseName = rest) := by
  refine ⟨?_, ?_, ?_, ?_, ?_⟩
  · intro host home upath fs remote rest hrest
    exact c8aux_remote host home upath fs remote rest hrest
  · intro host home upath fs rest hrest
    exact c8aux_untitled_remote host home upath fs rest hrest
  · intro host home upath fsRest remote rest hhome hrest
    exact c8aux_file_posix host home upath fsRest remote rest hhome hrest
  · intro home upath fs rest hhome hrest
    exact c8aux_untitled_local home upath fs rest hhome hrest
  · intro host home upath fs remote rest hfs hhome hbh hrest hbrest
    exact c8aux_file_windows host home upath fs remote rest hfs hhome hbh hrest hbrest

/-- Witness for C8: in a remote-file context the `~` stays literal; in a
local-file context it expands to the home directory. -/
theorem c8_untildify_witness :
    (getPathDetails false (jstr "/home/u") ('~' :: '/' :: jstr "notes.txt")
        { scheme := "vscode-remote", path := jstr "/home/r/doc.txt", fsPath := jstr "/home/r/doc.txt" } true).dirName = ['~', '/']
    ∧ (getPathDetails false (jstr "/home/u") ('~' :: '/' :: jstr "notes.txt")
        { scheme := "file", path := jstr "/home/user/doc.txt", fsPath := '/' :: jstr "home/user/doc.txt" } false).dirName = jstr "/home/u" ++ ['/'] :=
  ⟨(c8_untildify_exactly_when.1 false (jstr "/home/u") (jstr "/home/r/doc.txt")
      (jstr "/home/r/doc.txt") true (jstr "notes.txt") (by decide)).1,
   (c8_untildify_exactly_when.2.2.1 false (jstr "/home/u") (jstr "/home/user/doc.txt")
      (jstr "home/user/doc.txt") false (jstr "notes.txt") (by decide) (by decide)).1⟩

/-- C1 counterexample: with a reference handle of scheme `file` and a
nonempty authority, translating the well-formed POSIX path `/a/b` and
converting back yields `//srv/a/b` (the authority is folded into the
string), not `/a/b` — so the round-trip fails even modulo drive-letter
casing. -/
theorem c1_counterexample :
    (resolveUri false (jstr "/a/b") '/'
        { scheme := "file", authority := jstr "srv", path := jstr "/x" } false).map uriToFsPath
      = some (jstr "//srv/a/b")
    ∧ jstr "//srv/a/b" ≠ jstr "/a/b" := by
  constructor
  · decide
  · decide

/-- C1 (amended): the round-trip holds in the authority-free cases: a
POSIX-convention absolute path whose second segment is not drive-letter-like
round-trips exactly through a reference handle with empty authority; and a
Windows drive-letter path translated on a non-Windows host round-trips up to
uppercasing the drive letter.  (UNC paths and nonempty-authority references
fold the host into the authority and do not round-trip verbatim.) -/
theorem c1_roundtrip :
    (∀ (host remote : Bool) (ref : Uri) (p : JStr),
        ref.authority = [] → p.get? 0 = some '/' → hasDriveLetter p 1 = false →
        (resolveUri host p '/' ref remote).map uriToFsPath = some p)
    ∧ (∀ (remote : Bool) (ref : Uri) (c : Char) (rest : JStr),
        isAsciiLetter c = true → rest.get? 0 = some ':' → rest.get? 1 = some '\\' →
        (resolveUri false (c :: rest) '\\' ref remote).map uriToFsPath
          = some (c.toUpper :: rest)) := by
  constructor
  · intro host remote ref p hauth hp hdl
    obtain ⟨rs, ra, rp⟩ := ref
    simp only at hauth
    subst hauth
    match p, hp with
    | c :: p', hp =>
      have hc : c = '/' := by simpa using hp
      subst hc
      unfold resolveUri
      rw [if_neg (by decide), if_pos hp]
      simp only [Option.map_some']
      congr 1
      unfold uriToFsPath
      rw [if_neg (by simp)]
      match p', hdl with
      | [], _ => rfl
      | c2 :: p'', hdl =>
        show (if hasDriveLetter ('/' :: c2 :: p'') 1 = true then c2.toUpper :: p''
              else '/' :: c2 :: p'') = '/' :: c2 :: p''
        rw [hdl]
        rfl
  · intro remote ref c rest hl h1 h2
    match rest, h1, h2 with
    | x :: r1, h1, h2 =>
      have hx : x = ':' := by simpa using h1
      subst hx
      match r1, h2 with
      | y :: r2, h2 =>
        have hy : y = '\\' := by simpa using h2
        subst hy
        have hcnotslash : c ≠ '/' := by
          intro hcc
          subst hcc
          exact absurd hl (by decide)
        have hdrive : driveAnywhereTest (c :: ':' :: '\\' :: r2) = true := by
          unfold driveAnywhereTest
          simp [hl]
        have hwin : winPathTest (c :: ':' :: '\\' :: r2) = true := by
          unfold winPathTest
          rw [hdrive, Bool.or_true]
        unfold resolveUri
        rw [if_pos rfl, if_pos hwin]
        simp only [Option.map_some']
        congr 1
        show uriToFsPath (uriFile false (c :: ':' :: '\\' :: r2)) = c.toUpper :: ':' :: '\\' :: r2
        have hfile : uriFile false (c :: ':' :: '\\' :: r2)
            = { scheme := "file", authority := [], path := '/' :: c :: ':' :: '\\' :: r2 } := by
          unfold uriFile
          simp only [Bool.false_eq_true, if_false]
          rw [if_neg (fun hcontra => hcnotslash (by simpa using hcontra.1))]
          rw [if_neg (by simpa using hcnotslash)]
        rw [hfile]
        have hhd : hasDriveLetter ('/' :: c :: ':' :: '\\' :: r2) 1 = true := by
          unfold hasDriveLetter
          rw [if_pos (by simp)]
          simpa using hl
        unfold uriToFsPath
        rw [if_neg (by simp)]
        show (if hasDriveLetter ('/' :: c :: ':' :: '\\' :: r2) 1 = true
              then c.toUpper :: ':' :: '\\' :: r2
              else '/' :: c :: ':' :: '\\' :: r2) = c.toUpper :: ':' :: '\\' :: r2
        rw [hhd]
        rfl

/-- Witness for C1: the POSIX path `/a/b` through an authority-free remote
reference, and the Windows path `c:\far` on a non-Windows host. -/
theorem c1_roundtrip_witness :
    (resolveUri false (jstr "/a/b") '/'
        { scheme := "vscode-remote", authority := [], path := jstr "/x" } false).map uriToFsPath
      = some (jstr "/a/b")
    ∧ (resolveUri false ('c' :: jstr ":\\far") '\\'
        { scheme := "file", authority := [], path := jstr "/x" } false).map uriToFsPath
      = some ('c'.toUpper :: jstr ":\\far") :=
  ⟨c1_roundtrip.1 false false { scheme := "vscode-remote", authority := [], path := jstr "/x" }
      (jstr "/a/b") rfl (by decide) (by decide),
   c1_roundtrip.2 false { scheme := "file", authority := [], path := jstr "/x" }
      'c' (jstr ":\\far") (by decide) (by decide) (by decide)⟩
